import Mathlib

/-!
Verification of the command/response correlation engine of
`marantz_remote/receiver.py` (class `ReceiverBase` together with the
descriptor classes `Control`, `EnumControl`, `NumericControl` and
`VolumeControl`).

The embedding is shallow and executable:

* A Python value cached or delivered to a waiter is a `Value`
  (raw string, int, or enum member identified by its wire token).
* A `Control` is the immutable part of a descriptor object after
  `__init__` (receiver.py 109-116) and `__set_name__` (137-141) have
  run: `name` is the attribute name used as cache key, plus the status
  command, response prefix text, set command, and the codec variant
  (`ControlKind`) given by the concrete Python class.
* A session (`SessionState`) carries the mutable state of one
  `ReceiverBase` instance: the connection flag (`protocol is not None`),
  the `pending_writes` FIFO, the `deferred_writer` slot (modelled by a
  Bool: a deferred is armed), the advancement `timeout`, the
  `cached_values` dict (modelled by its lookup function), and the
  waiter deferreds.  In the Python source each `Control` keeps its own
  `deferreds` list; for a single instance that is equivalent to keying
  the waiters by the control name, which is what `waiters` does.  The
  cross-instance sharing of those lists is modelled separately (see the
  `PairState` section) because it is exactly what claim C9 is about.
* Observable effects are traces: `transmitted` collects the arguments
  of `protocol.sendLine`, `fired` the `(deferred, value)` callback
  deliveries, `failed` the errback deliveries (no code path of
  receiver.py ever errbacks a waiter deferred), and `diagnostics` the
  messages printed to stderr.
* Python exceptions that escape to the caller are modelled with
  `Except`: `NumericControl.__set__` may raise `ValueError` before any
  command is enqueued.  The `parse` methods catch their decode errors,
  so the line handlers are total functions.

Timer events (the `addTimeout` on the writer deferred) are not part of
the transition functions; the claims treated here only concern the
behaviour with no timer expiry, or with `timeout = 0` where no timer is
armed at all.
-/

/-- A decoded control value as stored in `cached_values` or delivered to
a deferred: a raw string (base `Control`), a Python int
(`NumericControl`), or an enum member identified by its wire-token
value (`EnumControl`). -/
inductive Value where
  | str : String → Value
  | num : Int → Value
  | enumMember : String → Value
deriving DecidableEq, Repr

/-- Python truthiness of a `Value`, used by the `if value:` test in
`Control.__get__` (receiver.py 124): empty string and int 0 are falsy,
enum members are always truthy. -/
def Value.truthy : Value → Bool
  | .str txt => !(txt == "")
  | .num n => !(n == 0)
  | .enumMember _ => true

/-- Truthiness of `cached_values.get(name, None)`: `None` is falsy. -/
def pyTruthy : Option Value → Bool
  | none => false
  | some v => v.truthy

/-- The Python exception that can escape a codec: `ValueError`. -/
inductive PyError where
  | valueError
deriving DecidableEq, Repr

/-- The codec variant of a descriptor, i.e. which concrete Python class
it is: `Control`, `EnumControl` (with its table of member wire tokens),
`NumericControl digits`, or `VolumeControl digits`. -/
inductive ControlKind where
  | plain
  | enumCtl (table : List String)
  | numeric (digits : Nat)
  | volume (digits : Nat)
deriving DecidableEq, Repr

/-- Immutable data of one descriptor after class construction.  `name`
is the attribute name assigned by `__set_name__` (receiver.py 141) and
is the key used in `cached_values`. -/
structure Control where
  name : String
  statusCommand : String
  responseStart : String
  setCommand : String
  kind : ControlKind
deriving DecidableEq, Repr

/-- Model of `Control.__init__` (receiver.py 109-116) combined with the renaming
done by `__set_name__` (receiver.py 137-141): `none` models passing
Python `None` for an optional argument, in which case the defaults
`name?`, `name` and `name` are used.  `ctorName` is the `name` argument
of the constructor, `attrName` the class attribute name. -/
def Control.init (ctorName : String) (statusCommand : Option String)
    (responseStart : Option String) (setCommand : Option String)
    (kind : ControlKind) (attrName : String) : Control :=
  { name := attrName
    statusCommand := statusCommand.getD (ctorName ++ "?")
    responseStart := responseStart.getD ctorName
    setCommand := setCommand.getD ctorName
    kind := kind }

/-- The `cached_values` dict of one `ReceiverBase` instance, modelled by
its lookup function. -/
abbrev Cache := String → Option Value

def Cache.empty : Cache := fun _ => none

def Cache.get (cache : Cache) (k : String) : Option Value := cache k

/-- Model of `instance.cached_values[name] = value` (receiver.py 147). -/
def Cache.insert (cache : Cache) (k : String) (v : Value) : Cache :=
  fun q => if q = k then some v else cache q

/-- Model of `del instance.cached_values[name]` guarded by the membership test of
`Control.clear_value` (receiver.py 152-154); on the lookup function the
guard is irrelevant. -/
def Cache.erase (cache : Cache) (k : String) : Cache :=
  fun q => if q = k then none else cache q

/-- Mutable state of one `ReceiverBase` instance (receiver.py 39-55)
plus the event traces described in the header comment.  `waiters` holds
the registered, not yet resolved waiter deferreds as
(control name, deferred id) in registration order; `nextWaiterId`
numbers the deferreds created by `__get__`. -/
structure SessionState where
  protocolConnected : Bool
  pendingWrites : List String
  deferredWriter : Bool
  timeout : Nat
  cache : Cache
  waiters : List (String × Nat)
  nextWaiterId : Nat
  transmitted : List String
  fired : List (Nat × Value)
  failed : List (Nat × String)
  diagnostics : List String

/-- State right after `ReceiverBase.__init__` (receiver.py 48-55),
without the transport side effects of `connect`: not yet connected,
empty dict, empty write queue, no writer deferred armed. -/
def freshState (timeout : Nat) : SessionState :=
  { protocolConnected := false
    pendingWrites := []
    deferredWriter := false
    timeout := timeout
    cache := Cache.empty
    waiters := []
    nextWaiterId := 0
    transmitted := []
    fired := []
    failed := []
    diagnostics := [] }

/-- Model of `ReceiverBase._write_next` (receiver.py 68-81): return if there is
no protocol or no pending command; otherwise pop the queue head, send
it, and, when the configured timeout is positive, arm a fresh writer
deferred (when the timeout is 0 the writer slot is left untouched). -/
def writeNext (s : SessionState) : SessionState :=
  if s.protocolConnected = false then s
  else
    match s.pendingWrites with
    | [] => s
    | command :: rest =>
      if s.timeout > 0 then
        { s with pendingWrites := rest
                 transmitted := s.transmitted ++ [command]
                 deferredWriter := true }
      else
        { s with pendingWrites := rest
                 transmitted := s.transmitted ++ [command] }

/-- Model of `ReceiverBase.write` (receiver.py 62-66): append the command to
`pending_writes`; if no writer deferred is armed, call `_write_next`. -/
def ReceiverBase.write (s : SessionState) (command : String) : SessionState :=
  let s1 := { s with pendingWrites := s.pendingWrites ++ [command] }
  if s1.deferredWriter = false then writeNext s1 else s1

/-- Model of `ReceiverBase._connected` followed by the chained `_write_next`
callback (receiver.py 53-55, 83-85): record the protocol and start
draining the queue. -/
def connectedCb (s : SessionState) : SessionState :=
  writeNext { s with protocolConnected := true }

/-- Structural prefix test on character lists (the anchor of
`re.match`). -/
def charsStart : List Char → List Char → Bool
  | [], _ => true
  | _ :: _, [] => false
  | a :: as, b :: bs => a == b && charsStart as bs

/-- Python `re.match` of the compiled pattern `responseStart(.*)` used
by `Control` and `EnumControl` (receiver.py 118-119): the pattern is
anchored at the start of the line, and group 1 is the whole rest of the
line. -/
def matchPlain (start line : String) : Option String :=
  if charsStart start.toList line.toList then some (line.drop start.length)
  else none

/-- The ASCII whitespace class matched by a regex backslash-s. -/
def isPySpace (ch : Char) : Bool :=
  ch == ' ' || ch == '\t' || ch == '\n' || ch == '\r' || ch == '\x0b' || ch == '\x0c'

/-- Greedy match of the group in `NumericControl`s pattern, whitespace
run followed by a nonempty digit run (receiver.py 189-190); whitespace
and digits are disjoint so the regex engine never backtracks here. -/
def matchNumTail (cs : List Char) : Option (List Char) :=
  let ws := cs.takeWhile isPySpace
  let ds := (cs.dropWhile isPySpace).takeWhile Char.isDigit
  if ds.isEmpty then none else some (ws ++ ds)

/-- Python `re.match` of the compiled `NumericControl` pattern (anchored
prefix, then the whitespace-digits group; trailing text is ignored by
`match`). -/
def matchNum (start line : String) : Option String :=
  if charsStart start.toList line.toList then
    (matchNumTail (line.drop start.length).toList).map (fun cs => String.mk cs)
  else none

/-- Model of `pattern.match(line)` for a registered control, returning group 1 on
success (receiver.py 90-92).  `EnumControl` inherits the plain pattern;
`VolumeControl` inherits the numeric one.  All response prefixes used by
the repository are literal text without regex metacharacters. -/
def Control.matchLine (c : Control) (line : String) : Option String :=
  match c.kind with
  | .plain => matchPlain c.responseStart line
  | .enumCtl _ => matchPlain c.responseStart line
  | .numeric _ => matchNum c.responseStart line
  | .volume _ => matchNum c.responseStart line

/-- Value of a nonempty all-digit character run. -/
def digitsVal (ds : List Char) : Option Nat :=
  if ds.isEmpty then none
  else if ds.all Char.isDigit then
    some (ds.foldl (fun a ch => a * 10 + (ch.toNat - 48)) 0)
  else none

/-- Python `int(text)` on a decimal string: strip surrounding
whitespace, optional sign, then a nonempty digit run; anything else
raises `ValueError` (modelled as `none`). -/
def pyInt (text : String) : Option Int :=
  let cs := ((text.toList.dropWhile isPySpace).reverse.dropWhile isPySpace).reverse
  match cs with
  | '-' :: ds => (digitsVal ds).map (fun n => -(n : Int))
  | '+' :: ds => (digitsVal ds).map (fun n => (n : Int))
  | ds => (digitsVal ds).map (fun n => (n : Int))

/-- Decoding the captured group under the codec of the matching class:
base `Control.parse` stores the raw capture (receiver.py 143-144),
`EnumControl.parse` looks the token up in the enum table and raises
`ValueError` on a miss (167-172), `NumericControl.parse` (inherited by
`VolumeControl`) applies `int` (192-197). -/
def decodeCapture : ControlKind → String → Except PyError Value
  | .plain, m => .ok (.str m)
  | .enumCtl table, m =>
    if table.contains m then .ok (.enumMember m) else .error .valueError
  | .numeric _, m =>
    match pyInt m with
    | some n => .ok (.num n)
    | none => .error .valueError
  | .volume _, m =>
    match pyInt m with
    | some n => .ok (.num n)
    | none => .error .valueError

/-- Model of `Control.store_value` (receiver.py 146-150): cache the value under
the control name, fire every deferred of this control with it (in
registration order), then clear the deferred list. -/
def storeValue (c : Control) (s : SessionState) (v : Value) : SessionState :=
  { s with cache := s.cache.insert c.name v
           fired := s.fired ++
             (s.waiters.filter (fun w => w.1 == c.name)).map (fun w => (w.2, v))
           waiters := s.waiters.filter (fun w => !(w.1 == c.name)) }

/-- Model of `Control.clear_value` (receiver.py 152-154). -/
def clearValue (c : Control) (s : SessionState) : SessionState :=
  { s with cache := s.cache.erase c.name }

/-- The `parse` method of the matching descriptor class applied to the
captured group (receiver.py 143-144, 167-172, 192-197).  The
`try/except` of `EnumControl.parse` and `NumericControl.parse` is
embedded as the match on the decode result, so the function is total:
no exception escapes to the line handler. -/
def Control.parseCapture (c : Control) (s : SessionState) (m : String) : SessionState :=
  match decodeCapture c.kind m with
  | .ok v => storeValue c s v
  | .error _ =>
    { clearValue c s with diagnostics := s.diagnostics ++ ["Invalid value: " ++ m] }

/-- Effect of one registry entry on the session during
`ReceiverBase.parse` (receiver.py 89-92): if the pattern matches, run
the descriptor parse on the capture. -/
def lineStep (line : String) (s : SessionState) (c : Control) : SessionState :=
  match c.matchLine line with
  | some m => Control.parseCapture c s m
  | none => s

/-- One iteration of the handler loop of `ReceiverBase.parse`,
additionally tracking the `handled` flag (receiver.py 88-93). -/
def handleLine (line : String) (acc : SessionState × Bool) (c : Control) :
    SessionState × Bool :=
  match c.matchLine line with
  | some m => (Control.parseCapture c acc.1 m, true)
  | none => acc

/-- The `if not handled:` diagnostic of `ReceiverBase.parse`
(receiver.py 94-95). -/
def afterHandlers (acc : SessionState × Bool) (line : String) : SessionState :=
  if acc.2 then acc.1
  else { acc.1 with diagnostics := acc.1.diagnostics ++ ["Unhandled response: " ++ line] }

/-- The advancement step of `ReceiverBase.parse` (receiver.py 96-98):
if a writer deferred is armed, clear the slot and fire the deferred,
whose callback is `_write_next`. -/
def advanceWriter (s1 : SessionState) : SessionState :=
  if s1.deferredWriter then writeNext { s1 with deferredWriter := false } else s1

/-- Model of `ReceiverBase.parse` (receiver.py 87-98): test the line against
every registered handler (every match is processed), print a diagnostic
if none matched, then run the advancement step. -/
def ReceiverBase.parse (handlers : List Control) (s : SessionState)
    (line : String) : SessionState :=
  advanceWriter (afterHandlers (handlers.foldl (handleLine line) (s, false)) line)

/-- Model of `Control.__get__` (receiver.py 121-129): create a deferred, then
resolve it from the cache when the cached value is truthy (`if value:`),
otherwise write the status command and register the deferred on the
control. -/
def Control.get (c : Control) (s : SessionState) : SessionState × Nat :=
  let d := s.nextWaiterId
  let s1 := { s with nextWaiterId := d + 1 }
  match s1.cache.get c.name with
  | some v =>
    if v.truthy then
      ({ s1 with fired := s1.fired ++ [(d, v)] }, d)
    else
      let s2 := ReceiverBase.write s1 c.statusCommand
      ({ s2 with waiters := s2.waiters ++ [(c.name, d)] }, d)
  | none =>
    let s2 := ReceiverBase.write s1 c.statusCommand
    ({ s2 with waiters := s2.waiters ++ [(c.name, d)] }, d)

/-- Model of `Control.__set__` (receiver.py 131-132): write the set command with
the formatted value appended. -/
def Control.setCmd (c : Control) (s : SessionState) (valueText : String) : SessionState :=
  ReceiverBase.write s (c.setCommand ++ valueText)

/-- Fuel-based most-significant-first decimal digit list of `n`. -/
def numReprAux : Nat → Nat → List Char
  | 0, _ => []
  | fuel + 1, n =>
    if n = 0 then []
    else numReprAux fuel (n / 10) ++ [Char.ofNat (48 + n % 10)]

/-- Decimal rendering of a nonnegative int, as Python `str`/`format`
produce it. -/
def numRepr (n : Nat) : String :=
  if n = 0 then "0" else String.mk (numReprAux n n)

/-- Zero padding to a minimum width, the effect of the Python format
specification built in `NumericControl.__init__` (receiver.py 181) on a
nonnegative value. -/
def padZeros (width : Nat) (text : String) : String :=
  String.mk (List.replicate (width - text.length) '0') ++ text

/-- The formatted text of `NumericControl.__set__` for a nonnegative
value: zero-padded decimal of minimum width `digits`. -/
def formatNum (digits : Nat) (n : Nat) : String :=
  padZeros digits (numRepr n)

/-- Model of `NumericControl.__set__` (receiver.py 184-187): raise `ValueError`
when the value is negative or at least `10 ** digits` (before any
command is enqueued — an `Except.error` result leaves the session
untouched), otherwise enqueue the set command with the zero-padded
value. -/
def NumericControl.setNum (c : Control) (digits : Nat) (s : SessionState)
    (v : Int) : Except PyError SessionState :=
  if v < 0 ∨ (10 : Int) ^ digits ≤ v then .error .valueError
  else .ok (Control.setCmd c s (formatNum digits v.toNat))

/-- An argument written to a `VolumeControl` attribute: the two string
sentinels, or an int. -/
inductive VolumeInput where
  | plus
  | minus
  | int : Int → VolumeInput
deriving DecidableEq, Repr

/-- Model of `VolumeControl.__set__` (receiver.py 200-207): the sentinel "+" is
sent as the fixed token UP, "-" as DOWN, both through the base
`Control.__set__` (no digit formatting); any other value goes through
`NumericControl.__set__`. -/
def VolumeControl.set (c : Control) (digits : Nat) (s : SessionState) :
    VolumeInput → Except PyError SessionState
  | .plus => .ok (Control.setCmd c s "UP")
  | .minus => .ok (Control.setCmd c s "DOWN")
  | .int v => NumericControl.setNum c digits s v

/-- Model of `ReceiverProtocol.connectionLost` (receiver.py 32-33): the only
effect is a message printed to stderr; the receiver state, the queue
and all registered waiter deferreds are left exactly as they were, and
no errback is issued. -/
def ReceiverProtocol.connectionLost (s : SessionState) : SessionState :=
  { s with diagnostics := s.diagnostics ++ ["Connection lost"] }

/-- The decoded value a registry entry would store for a line: `none`
when the pattern does not match or the decode raises. -/
def storesValue (c : Control) (line : String) : Option Value :=
  match c.matchLine line with
  | none => none
  | some m => (decodeCapture c.kind m).toOption

/-- Whether some registry entry named `k` stores a decoded value for
this line. -/
def storesAny (handlers : List Control) (line k : String) : Bool :=
  handlers.any (fun c => c.name == k && (storesValue c line).isSome)

/-- The callback delivery a waiter receives during the handler loop for
this line, if any: the first registry entry carrying the waiters name
decides (with nodup names it is the only one). -/
def firedFor (handlers : List Control) (line : String) (w : String × Nat) :
    Option (Nat × Value) :=
  match handlers.find? (fun c => c.name == w.1) with
  | some c => (storesValue c line).map (fun v => (w.2, v))
  | none => none

/-!
Two `ReceiverBase` instances of the same receiver class.  Descriptor
objects are class attributes, so both instances see the *same*
`Control` object, and in the source the mutable `deferreds` list lives
on that shared descriptor (receiver.py 107, 116, 128, 148-150) while
`cached_values` and `pending_writes` are per instance.  `PairState`
carries the per-instance state of both instances plus the one shared
`deferreds` list of a single descriptor; `fired` is the common trace of
callback deliveries.  Both instances are taken after their connection
callback ran (protocol present); stderr prints are not traced here. -/
structure PairState where
  cache1 : Cache
  cache2 : Cache
  pending1 : List String
  pending2 : List String
  dw1 : Bool
  dw2 : Bool
  timeout : Nat
  transmitted1 : List String
  transmitted2 : List String
  sharedDeferreds : List Nat
  nextId : Nat
  fired : List (Nat × Value)

/-- Model of `_write_next` on instance 1 (receiver.py 68-81, protocol present). -/
def pairWriteNext1 (p : PairState) : PairState :=
  match p.pending1 with
  | [] => p
  | command :: rest =>
    if p.timeout > 0 then
      { p with pending1 := rest, transmitted1 := p.transmitted1 ++ [command], dw1 := true }
    else
      { p with pending1 := rest, transmitted1 := p.transmitted1 ++ [command] }

/-- Model of `_write_next` on instance 2. -/
def pairWriteNext2 (p : PairState) : PairState :=
  match p.pending2 with
  | [] => p
  | command :: rest =>
    if p.timeout > 0 then
      { p with pending2 := rest, transmitted2 := p.transmitted2 ++ [command], dw2 := true }
    else
      { p with pending2 := rest, transmitted2 := p.transmitted2 ++ [command] }

/-- Model of `write` on instance 1 (receiver.py 62-66). -/
def pairWrite1 (p : PairState) (command : String) : PairState :=
  let p1 := { p with pending1 := p.pending1 ++ [command] }
  if p1.dw1 = false then pairWriteNext1 p1 else p1

/-- Model of `Control.__get__` with instance 1 as `instance` (receiver.py
121-129): on a cache miss the status command goes to the queue of
instance 1, but the deferred is appended to the shared list on the descriptor, namely its
`deferreds` list. -/
def pairGet1 (c : Control) (p : PairState) : PairState × Nat :=
  let d := p.nextId
  let p1 := { p with nextId := d + 1 }
  match p1.cache1.get c.name with
  | some v =>
    if v.truthy then ({ p1 with fired := p1.fired ++ [(d, v)] }, d)
    else
      let p2 := pairWrite1 p1 c.statusCommand
      ({ p2 with sharedDeferreds := p2.sharedDeferreds ++ [d] }, d)
  | none =>
    let p2 := pairWrite1 p1 c.statusCommand
    ({ p2 with sharedDeferreds := p2.sharedDeferreds ++ [d] }, d)

/-- Model of `ReceiverBase.parse` on instance 2 for a registry holding the one
shared descriptor (receiver.py 87-98 with `Control.parse` and
`store_value`, 143-150): a decoded value lands in the cache of instance 2,
but the callbacks go to every deferred on the shared list — including
those registered through instance 1. -/
def pairParse2 (c : Control) (p : PairState) (line : String) : PairState :=
  let p1 :=
    match c.matchLine line with
    | some m =>
      match decodeCapture c.kind m with
      | .ok v =>
        { p with cache2 := p.cache2.insert c.name v
                 fired := p.fired ++ p.sharedDeferreds.map (fun i => (i, v))
                 sharedDeferreds := [] }
      | .error _ => { p with cache2 := p.cache2.erase c.name }
    | none => p
  if p1.dw2 then pairWriteNext2 { p1 with dw2 := false } else p1

/-- The shared descriptor of the C9 scenario: `Control("PW")` assigned
to a class attribute named `control`, as in the tests of the repository. -/
def pairControl : Control := Control.init "PW" none none none .plain "control"

/-- Both instances freshly connected, nothing cached or queued. -/
def pairInit : PairState :=
  { cache1 := Cache.empty
    cache2 := Cache.empty
    pending1 := []
    pending2 := []
    dw1 := false
    dw2 := false
    timeout := 1
    transmitted1 := []
    transmitted2 := []
    sharedDeferreds := []
    nextId := 0
    fired := [] }

/-- State after a read through instance 1 registered waiter 0. -/
def pairAfterRead : PairState := (pairGet1 pairControl pairInit).1

/-- State after instance 2 then processed the inbound line `PWON`. -/
def pairFinal : PairState := pairParse2 pairControl pairAfterRead "PWON"

/-- Scenario: three commands written in order on a freshly connected
session with advancement timeout `t`. -/
def threeWrites (t : Nat) (a b c : String) : SessionState :=
  ReceiverBase.write (ReceiverBase.write (ReceiverBase.write
    (connectedCb (freshState t)) a) b) c

/-- Equality of the write-queue related fields of two session states;
the handler loop of `parse` never touches these. -/
def QueueEq (s1 s2 : SessionState) : Prop :=
  s1.pendingWrites = s2.pendingWrites ∧
  s1.transmitted = s2.transmitted ∧
  s1.deferredWriter = s2.deferredWriter ∧
  s1.protocolConnected = s2.protocolConnected ∧
  s1.timeout = s2.timeout

/-- Fixture: `NumericControl("MV")` bound to an attribute named `control`, as in
the tests of the repository. -/
def ctlMV : Control := Control.init "MV" none none none (.numeric 2) "control"

/-- Fixture: `EnumControl("SD", enum_type=TestEnum)` with the three-member table
of the test in the repository, bound to an attribute named `control`. -/
def ctlSD : Control :=
  Control.init "SD" none none none (.enumCtl ["AUTO", "HDMI", "DIGITAL"]) "control"

/-- Fixture: `VolumeControl("CVFL", status_command="CV?", set_command="CVFL ")`
bound to `cvfl` — one of the channel-volume descriptors sharing the
bulk query `CV?`. -/
def ctlFL : Control :=
  Control.init "CVFL" (some "CV?") none (some "CVFL ") (.volume 2) "cvfl"

/-- Fixture: `VolumeControl("CVFR", status_command="CV?", set_command="CVFR ")`
bound to `cvfr`. -/
def ctlFR : Control :=
  Control.init "CVFR" (some "CV?") none (some "CVFR ") (.volume 2) "cvfr"

/-- A connected session holding a cached enum value and one outstanding
waiter for the attribute `control`. -/
def stC3 : SessionState :=
  { freshState 1 with
      protocolConnected := true
      cache := Cache.empty.insert "control" (.enumMember "AUTO")
      waiters := [("control", 0)]
      nextWaiterId := 1 }

/-- A connected idle session whose cache holds the integer 0 for the
attribute `control`. -/
def stC4 : SessionState :=
  { freshState 1 with
      protocolConnected := true
      cache := Cache.empty.insert "control" (.num 0) }

/-- A connected idle session whose cache holds the integer 50 for the
attribute `control`. -/
def stC4b : SessionState :=
  { freshState 1 with
      protocolConnected := true
      cache := Cache.empty.insert "control" (.num 50) }

/-- A connected session with one outstanding waiter for `cvfl` and one
for `cvfr` (one pending read on each channel-volume control). -/
def stC5 : SessionState :=
  { freshState 1 with
      protocolConnected := true
      waiters := [("cvfl", 0), ("cvfr", 1)]
      nextWaiterId := 2 }

/-- A connected session with one outstanding waiter when the TCP
connection drops. -/
def stC6 : SessionState :=
  { freshState 1 with
      protocolConnected := true
      waiters := [("control", 0)]
      nextWaiterId := 1 }

/-- The cache entry a single registry entry leaves for its own name
after one line: the decoded capture on a match (`none` after a decode
failure), otherwise the previous entry. -/
def cacheOutcome (line : String) (c : Control) (base : Option Value) : Option Value :=
  match c.matchLine line with
  | some m => (decodeCapture c.kind m).toOption
  | none => base

/-- The cache entry for key `k` after the whole registry processed one
line, in terms of the (unique, when names are nodup) entry named `k`. -/
def registryCacheSpec (line : String) (hs : List Control) (k : String)
    (base : Option Value) : Option Value :=
  match hs.find? (fun c => c.name == k) with
  | some c => cacheOutcome line c base
  | none => base

/-! ### Queue mechanics -/

theorem writeNext_nil (s : SessionState) (hp : s.pendingWrites = []) :
    writeNext s = s := by
  unfold writeNext
  split
  · rfl
  · rw [hp]

theorem writeNext_send (s : SessionState) (cmd : String) (rest : List String)
    (hc : s.protocolConnected = true) (hp : s.pendingWrites = cmd :: rest)
    (ht : 0 < s.timeout) :
    writeNext s =
      { s with pendingWrites := rest
               transmitted := s.transmitted ++ [cmd]
               deferredWriter := true } := by
  unfold writeNext
  rw [hc, hp]
  simp [ht]

theorem writeNext_send_zero (s : SessionState) (cmd : String) (rest : List String)
    (hc : s.protocolConnected = true) (hp : s.pendingWrites = cmd :: rest)
    (ht : s.timeout = 0) :
    writeNext s =
      { s with pendingWrites := rest
               transmitted := s.transmitted ++ [cmd] } := by
  unfold writeNext
  rw [hc, hp]
  simp [ht]

theorem writeNext_unconnected (s : SessionState) (hc : s.protocolConnected = false) :
    writeNext s = s := by
  unfold writeNext
  rw [hc]
  simp

theorem write_armed (s : SessionState) (cmd : String) (hdw : s.deferredWriter = true) :
    ReceiverBase.write s cmd = { s with pendingWrites := s.pendingWrites ++ [cmd] } := by
  unfold ReceiverBase.write
  simp [hdw]

theorem write_unconnected (s : SessionState) (cmd : String)
    (hc : s.protocolConnected = false) :
    ReceiverBase.write s cmd = { s with pendingWrites := s.pendingWrites ++ [cmd] } := by
  simp only [ReceiverBase.write]
  split
  · exact writeNext_unconnected _ hc
  · rfl

theorem write_send_idle (s : SessionState) (cmd : String)
    (hdw : s.deferredWriter = false) (hc : s.protocolConnected = true)
    (hp : s.pendingWrites = []) (ht : 0 < s.timeout) :
    ReceiverBase.write s cmd =
      { s with transmitted := s.transmitted ++ [cmd], deferredWriter := true } := by
  unfold ReceiverBase.write
  rw [if_pos (by simpa using hdw)]
  rw [writeNext_send _ cmd [] (by simpa using hc) (by simp [hp]) (by simpa using ht)]
  simp [hp]

theorem write_send_idle_zero (s : SessionState) (cmd : String)
    (hdw : s.deferredWriter = false) (hc : s.protocolConnected = true)
    (hp : s.pendingWrites = []) (ht : s.timeout = 0) :
    ReceiverBase.write s cmd =
      { s with transmitted := s.transmitted ++ [cmd] } := by
  unfold ReceiverBase.write
  rw [if_pos (by simpa using hdw)]
  rw [writeNext_send_zero _ cmd [] (by simpa using hc) (by simp [hp]) (by simpa using ht)]
  simp [hp]

theorem writeNext_trace (s : SessionState) :
    (writeNext s).transmitted ++ (writeNext s).pendingWrites =
      s.transmitted ++ s.pendingWrites ∧
    (writeNext s).waiters = s.waiters ∧
    (writeNext s).fired = s.fired ∧
    (writeNext s).failed = s.failed ∧
    (writeNext s).cache = s.cache ∧
    (writeNext s).nextWaiterId = s.nextWaiterId ∧
    (writeNext s).protocolConnected = s.protocolConnected ∧
    (writeNext s).timeout = s.timeout ∧
    (writeNext s).diagnostics = s.diagnostics := by
  unfold writeNext
  split
  · simp
  · split
    · simp_all
    · split <;> simp_all

theorem write_trace (s : SessionState) (cmd : String) :
    (ReceiverBase.write s cmd).transmitted ++ (ReceiverBase.write s cmd).pendingWrites =
      s.transmitted ++ s.pendingWrites ++ [cmd] ∧
    (ReceiverBase.write s cmd).waiters = s.waiters ∧
    (ReceiverBase.write s cmd).fired = s.fired ∧
    (ReceiverBase.write s cmd).failed = s.failed ∧
    (ReceiverBase.write s cmd).cache = s.cache ∧
    (ReceiverBase.write s cmd).nextWaiterId = s.nextWaiterId ∧
    (ReceiverBase.write s cmd).protocolConnected = s.protocolConnected ∧
    (ReceiverBase.write s cmd).timeout = s.timeout ∧
    (ReceiverBase.write s cmd).diagnostics = s.diagnostics := by
  simp only [ReceiverBase.write]
  split
  · have h := writeNext_trace { s with pendingWrites := s.pendingWrites ++ [cmd] }
    refine ⟨?_, h.2.1, h.2.2.1, h.2.2.2.1, h.2.2.2.2.1, h.2.2.2.2.2.1,
      h.2.2.2.2.2.2.1, h.2.2.2.2.2.2.2.1, h.2.2.2.2.2.2.2.2⟩
    rw [h.1]
    simp
  · simp

/-! ### The handler loop never touches the write queue -/

theorem queueEq_refl (s : SessionState) : QueueEq s s := ⟨rfl, rfl, rfl, rfl, rfl⟩

theorem queueEq_trans {a b c : SessionState} (h1 : QueueEq a b) (h2 : QueueEq b c) :
    QueueEq a c :=
  ⟨h1.1.trans h2.1, h1.2.1.trans h2.2.1, h1.2.2.1.trans h2.2.2.1,
   h1.2.2.2.1.trans h2.2.2.2.1, h1.2.2.2.2.trans h2.2.2.2.2⟩

theorem parseCapture_queueEq (c : Control) (s : SessionState) (m : String) :
    QueueEq (Control.parseCapture c s m) s := by
  unfold Control.parseCapture storeValue clearValue QueueEq
  split <;> simp

theorem handleLine_queueEq (line : String) (acc : SessionState × Bool) (c : Control) :
    QueueEq (handleLine line acc c).1 acc.1 := by
  unfold handleLine
  split
  · exact parseCapture_queueEq ..
  · exact queueEq_refl _

theorem foldHandle_queueEq (line : String) (hs : List Control) :
    ∀ acc : SessionState × Bool, QueueEq (hs.foldl (handleLine line) acc).1 acc.1 := by
  induction hs with
  | nil => intro acc; exact queueEq_refl _
  | cons c hs ih =>
    intro acc
    rw [List.foldl_cons]
    exact queueEq_trans (ih _) (handleLine_queueEq line acc c)

theorem afterHandlers_queueEq (acc : SessionState × Bool) (line : String) :
    QueueEq (afterHandlers acc line) acc.1 := by
  unfold afterHandlers QueueEq
  split <;> simp

/-! ### The advancement step of `parse` -/

theorem advanceWriter_idle (s1 : SessionState) (hdw : s1.deferredWriter = false) :
    advanceWriter s1 = s1 := by
  unfold advanceWriter
  rw [hdw]
  simp

theorem advanceWriter_empty (s1 : SessionState) (hdw : s1.deferredWriter = true)
    (hp : s1.pendingWrites = []) :
    advanceWriter s1 = { s1 with deferredWriter := false } := by
  unfold advanceWriter
  rw [hdw]
  simp only [if_true]
  exact writeNext_nil _ (by simpa using hp)

theorem advanceWriter_send (s1 : SessionState) (cmd : String) (rest : List String)
    (hdw : s1.deferredWriter = true) (hc : s1.protocolConnected = true)
    (hp : s1.pendingWrites = cmd :: rest) (ht : 0 < s1.timeout) :
    advanceWriter s1 =
      { s1 with pendingWrites := rest
                transmitted := s1.transmitted ++ [cmd]
                deferredWriter := true } := by
  unfold advanceWriter
  rw [hdw]
  simp only [if_true]
  rw [writeNext_send _ cmd rest (by simpa using hc) (by simpa using hp)
    (by simpa using ht)]

theorem parse_step (hs : List Control) (s : SessionState) (line : String)
    (hc : s.protocolConnected = true) (ht : 0 < s.timeout)
    (hinv : s.pendingWrites ≠ [] → s.deferredWriter = true) :
    (ReceiverBase.parse hs s line).transmitted =
      s.transmitted ++ s.pendingWrites.take 1 ∧
    (ReceiverBase.parse hs s line).pendingWrites = s.pendingWrites.drop 1 ∧
    (ReceiverBase.parse hs s line).protocolConnected = true ∧
    (ReceiverBase.parse hs s line).timeout = s.timeout ∧
    ((ReceiverBase.parse hs s line).pendingWrites ≠ [] →
      (ReceiverBase.parse hs s line).deferredWriter = true) := by
  obtain ⟨e1, e2, e3, e4, e5⟩ :
      QueueEq (afterHandlers (hs.foldl (handleLine line) (s, false)) line) s :=
    queueEq_trans (afterHandlers_queueEq _ _) (foldHandle_queueEq line hs (s, false))
  unfold ReceiverBase.parse
  cases hdw : s.deferredWriter with
  | false =>
    have hp : s.pendingWrites = [] := by
      by_contra hne
      rw [hinv hne] at hdw
      cases hdw
    rw [advanceWriter_idle _ (e3.trans hdw)]
    rw [e1, e2, e4, e5, hp]
    simp [hc]
  | true =>
    cases hp : s.pendingWrites with
    | nil =>
      rw [advanceWriter_empty _ (e3.trans hdw) (e1.trans hp)]
      refine ⟨?_, ?_, ?_, ?_, ?_⟩ <;> simp [e1, e2, e4, e5, hp, hc]
    | cons cmd rest =>
      rw [advanceWriter_send _ cmd rest (e3.trans hdw) (e4.trans hc) (e1.trans hp)
        (by rw [e5]; exact ht)]
      refine ⟨?_, ?_, ?_, ?_, ?_⟩ <;> simp [e1, e2, e4, e5, hp, hc]

theorem drain_lines (hs : List Control) (lines : List String) :
    ∀ s : SessionState, s.protocolConnected = true → 0 < s.timeout →
      (s.pendingWrites ≠ [] → s.deferredWriter = true) →
      (lines.foldl (fun st line => ReceiverBase.parse hs st line) s).transmitted =
        s.transmitted ++ s.pendingWrites.take lines.length ∧
      (lines.foldl (fun st line => ReceiverBase.parse hs st line) s).pendingWrites =
        s.pendingWrites.drop lines.length := by
  induction lines with
  | nil =>
    intro s _ _ _
    simp
  | cons line lines ih =>
    intro s hc ht hinv
    rw [List.foldl_cons]
    have h1 := parse_step hs s line hc ht hinv
    have h2 := ih (ReceiverBase.parse hs s line) h1.2.2.1
      (by rw [h1.2.2.2.1]; exact ht) h1.2.2.2.2
    constructor
    · rw [h2.1, h1.1, h1.2.1, List.length_cons, List.append_assoc, ← List.take_add,
        Nat.add_comm]
    · rw [h2.2, h1.2.1, List.drop_drop, List.length_cons, Nat.add_comm]

/-! ### Writes before the connection completes -/

theorem foldWrite_unconnected (ws : List String) :
    ∀ s : SessionState, s.protocolConnected = false → s.deferredWriter = false →
      ws.foldl ReceiverBase.write s =
        { s with pendingWrites := s.pendingWrites ++ ws } := by
  induction ws with
  | nil =>
    intro s _ _
    simp
  | cons w ws ih =>
    intro s hc hdw
    rw [List.foldl_cons, write_unconnected s w hc,
      ih { s with pendingWrites := s.pendingWrites ++ [w] } hc hdw]
    simp

/-! ### Claim theorems for the write queue -/

/-- C1: with a positive advancement timeout, after enqueuing `a`, `b`,
`c` (in that order) on a connected idle session with no inbound lines,
only `a` has been transmitted and `b`, `c` wait in order; processing
one inbound line — matching any registered pattern or not — transmits
exactly `b` next. -/
theorem single_inflight_fifo (t : Nat) (ht : 0 < t) (a b c line : String)
    (handlers : List Control) :
    (threeWrites t a b c).transmitted = [a] ∧
    (threeWrites t a b c).pendingWrites = [b, c] ∧
    (ReceiverBase.parse handlers (threeWrites t a b c) line).transmitted = [a, b] ∧
    (ReceiverBase.parse handlers (threeWrites t a b c) line).pendingWrites = [c] := by
  have h0 : connectedCb (freshState t) = { freshState t with protocolConnected := true } :=
    writeNext_nil _ rfl
  have h1 : threeWrites t a b c =
      { freshState t with
          protocolConnected := true
          transmitted := [a]
          deferredWriter := true
          pendingWrites := [b, c] } := by
    unfold threeWrites
    rw [h0, write_send_idle _ a rfl rfl rfl ht, write_armed _ b rfl, write_armed _ c rfl]
    simp [freshState]
  have h2 := parse_step handlers (threeWrites t a b c) line (by rw [h1]) (by rw [h1]; exact ht)
    (by rw [h1]; intro; rfl)
  refine ⟨by rw [h1], by rw [h1], ?_, ?_⟩
  · rw [h2.1, h1]
    rfl
  · rw [h2.2.1, h1]
    rfl

theorem single_inflight_fifo_witness :
    (threeWrites 1 "A" "B" "C").transmitted = ["A"] ∧
    (threeWrites 1 "A" "B" "C").pendingWrites = ["B", "C"] ∧
    (ReceiverBase.parse [] (threeWrites 1 "A" "B" "C") "X").transmitted = ["A", "B"] ∧
    (ReceiverBase.parse [] (threeWrites 1 "A" "B" "C") "X").pendingWrites = ["C"] :=
  single_inflight_fifo 1 (by decide) "A" "B" "C" "X" []

/-- C7: with advancement timeout 0 no deadline is armed and draining is
immediate: enqueuing three commands on a connected session with no
inbound lines transmits all three back-to-back in enqueue order. -/
theorem zero_timeout_drains_immediately (a b c : String) :
    (threeWrites 0 a b c).transmitted = [a, b, c] ∧
    (threeWrites 0 a b c).pendingWrites = [] ∧
    (threeWrites 0 a b c).deferredWriter = false :=
  ⟨rfl, rfl, rfl⟩

/-- C10: commands written before the connection is established are not
transmitted but retained in order; when the connection completes the
head is promoted and transmitted, and with a positive timeout the rest
follow in FIFO order as inbound lines advance the slot — nothing is
lost or reordered. -/
theorem write_before_connect_fifo (t : Nat) (ht : 0 < t) (ws lines : List String)
    (handlers : List Control) :
    (ws.foldl ReceiverBase.write (freshState t)).transmitted = [] ∧
    (ws.foldl ReceiverBase.write (freshState t)).pendingWrites = ws ∧
    (connectedCb (ws.foldl ReceiverBase.write (freshState t))).transmitted = ws.take 1 ∧
    (connectedCb (ws.foldl ReceiverBase.write (freshState t))).pendingWrites = ws.drop 1 ∧
    (lines.foldl (fun st line => ReceiverBase.parse handlers st line)
        (connectedCb (ws.foldl ReceiverBase.write (freshState t)))).transmitted =
      ws.take (1 + lines.length) ∧
    (lines.foldl (fun st line => ReceiverBase.parse handlers st line)
        (connectedCb (ws.foldl ReceiverBase.write (freshState t)))).pendingWrites =
      ws.drop (1 + lines.length) ∧
    (lines.foldl (fun st line => ReceiverBase.parse handlers st line)
        (connectedCb (ws.foldl ReceiverBase.write (freshState t)))).transmitted ++
      (lines.foldl (fun st line => ReceiverBase.parse handlers st line)
        (connectedCb (ws.foldl ReceiverBase.write (freshState t)))).pendingWrites =
      ws := by
  have hf : ws.foldl ReceiverBase.write (freshState t) =
      { freshState t with pendingWrites := ws } := by
    rw [foldWrite_unconnected ws (freshState t) rfl rfl]
    simp [freshState]
  cases ws with
  | nil =>
    have hcn : connectedCb (List.foldl ReceiverBase.write (freshState t) []) =
        { freshState t with protocolConnected := true } := by
      unfold connectedCb
      rw [hf]
      exact writeNext_nil _ rfl
    have hd := drain_lines handlers lines
      (connectedCb (List.foldl ReceiverBase.write (freshState t) []))
      (by rw [hcn]) (by rw [hcn]; exact ht)
      (by rw [hcn]; intro h; exact absurd rfl h)
    refine ⟨by rw [hf]; try rfl, by rw [hf]; try rfl,
      by simp only [hcn]; simp [freshState], by simp only [hcn]; simp [freshState],
      ?_, ?_, ?_⟩
    · rw [hd.1]
      simp only [hcn]
      simp [freshState]
    · rw [hd.2]
      simp only [hcn]
      simp [freshState]
    · rw [hd.1, hd.2]
      simp only [hcn]
      simp [freshState]
  | cons w rest =>
    have hcn : connectedCb (List.foldl ReceiverBase.write (freshState t) (w :: rest)) =
        { freshState t with
            protocolConnected := true
            pendingWrites := rest
            transmitted := [w]
            deferredWriter := true } := by
      unfold connectedCb
      rw [hf]
      rw [writeNext_send _ w rest rfl rfl ht]
      simp [freshState]
    have hd := drain_lines handlers lines
      (connectedCb (List.foldl ReceiverBase.write (freshState t) (w :: rest)))
      (by rw [hcn]) (by rw [hcn]; exact ht)
      (by rw [hcn]; intro; rfl)
    refine ⟨by rw [hf]; try rfl, by rw [hf]; try rfl,
      by simp only [hcn]; simp [freshState], by simp only [hcn]; simp [freshState],
      ?_, ?_, ?_⟩
    · rw [hd.1, Nat.add_comm, List.take_succ_cons]
      try simp only [hcn]
      try simp [freshState]
    · rw [hd.2, Nat.add_comm, List.drop_succ_cons]
      try simp only [hcn]
      try simp [freshState]
    · rw [hd.1, hd.2]
      simp only [hcn]
      simp [freshState]

theorem write_before_connect_fifo_witness :
    (["A", "B", "C"].foldl ReceiverBase.write (freshState 1)).transmitted = [] ∧
    (["A", "B", "C"].foldl ReceiverBase.write (freshState 1)).pendingWrites =
      ["A", "B", "C"] ∧
    (connectedCb (["A", "B", "C"].foldl ReceiverBase.write (freshState 1))).transmitted =
      ["A"] ∧
    (["X"].foldl (fun st line => ReceiverBase.parse [] st line)
        (connectedCb (["A", "B", "C"].foldl ReceiverBase.write (freshState 1)))).transmitted =
      ["A", "B"] := by
  have h := write_before_connect_fifo 1 (by decide) ["A", "B", "C"] ["X"] []
  exact ⟨h.1, h.2.1, h.2.2.1, h.2.2.2.2.1⟩

/-! ### Decimal formatting -/

theorem numReprAux_length_le (fuel : Nat) :
    ∀ n width : Nat, n ≤ fuel → n < 10 ^ width →
      (numReprAux fuel n).length ≤ width := by
  induction fuel with
  | zero =>
    intro n width hf _
    simp [numReprAux]
  | succ fuel ih =>
    intro n width hf hn
    unfold numReprAux
    by_cases h0 : n = 0
    · simp [h0]
    · simp only [h0, if_false, List.length_append, List.length_cons, List.length_nil]
      have hwidth : width ≠ 0 := by
        intro h
        rw [h, pow_zero] at hn
        omega
      obtain ⟨w, rfl⟩ : ∃ w, width = w + 1 := ⟨width - 1, by omega⟩
      have hdiv : n / 10 < 10 ^ w := by
        rw [Nat.div_lt_iff_lt_mul (by norm_num)]
        calc n < 10 ^ (w + 1) := hn
          _ = 10 ^ w * 10 := by ring
      have hfuel : n / 10 ≤ fuel := by
        have := Nat.div_lt_self (Nat.pos_of_ne_zero h0) (by norm_num : 1 < 10)
        omega
      have := ih (n / 10) w hfuel hdiv
      omega

theorem numRepr_length_le (n width : Nat) (hw : 0 < width) (hn : n < 10 ^ width) :
    (numRepr n).length ≤ width := by
  unfold numRepr
  by_cases h0 : n = 0
  · simpa [h0, String.length] using hw
  · simp only [h0, if_false]
    show (numReprAux n n).length ≤ width
    exact numReprAux_length_le n n width le_rfl hn

theorem formatNum_length (digits n : Nat) (hd : 0 < digits) (hn : n < 10 ^ digits) :
    (formatNum digits n).length = digits := by
  unfold formatNum padZeros
  rw [String.length_append]
  have h1 : (String.mk (List.replicate (digits - (numRepr n).length) '0')).length =
      digits - (numRepr n).length := by
    show (List.replicate (digits - (numRepr n).length) '0').length = _
    exact List.length_replicate ..
  rw [h1]
  have := numRepr_length_le n digits hd hn
  omega

/-- C2: for a numeric control with `digits = d` (all numeric descriptors
of the repository have `d` at least 1), writing `v` with
`0 <= v < 10 ^ d` enqueues exactly the set command followed by `v` as a
zero-padded decimal string of length exactly `d`; writing any `v`
outside that range raises `ValueError` synchronously, before any
command is enqueued (the returned error carries no new session state,
so the pending-write queue is untouched). -/
theorem numeric_set_range_check (c : Control) (d : Nat) (s : SessionState) (v : Int)
    (hd : 0 < d) :
    (0 ≤ v ∧ v < (10 : Int) ^ d →
      NumericControl.setNum c d s v =
        Except.ok (ReceiverBase.write s (c.setCommand ++ formatNum d v.toNat)) ∧
      (formatNum d v.toNat).length = d) ∧
    ((v < 0 ∨ (10 : Int) ^ d ≤ v) →
      NumericControl.setNum c d s v = Except.error PyError.valueError) := by
  constructor
  · rintro ⟨h1, h2⟩
    have hcast : ((10 ^ d : Nat) : Int) = (10 : Int) ^ d := by push_cast; ring
    have hlt : v.toNat < 10 ^ d := by omega
    constructor
    · unfold NumericControl.setNum
      rw [if_neg (by push_neg; exact ⟨h1, h2⟩)]
      rfl
    · exact formatNum_length d v.toNat hd hlt
  · intro h
    unfold NumericControl.setNum
    rw [if_pos h]

theorem numeric_set_range_check_witness :
    NumericControl.setNum ctlMV 2 (freshState 1) 4 =
      Except.ok (ReceiverBase.write (freshState 1) "MV04") ∧
    (formatNum 2 ((4 : Int)).toNat).length = 2 ∧
    NumericControl.setNum ctlMV 2 (freshState 1) 100 = Except.error PyError.valueError ∧
    NumericControl.setNum ctlMV 2 (freshState 1) (-1) = Except.error PyError.valueError := by
  have h4 := numeric_set_range_check ctlMV 2 (freshState 1) 4 (by decide)
  have h100 := numeric_set_range_check ctlMV 2 (freshState 1) 100 (by decide)
  have hm1 := numeric_set_range_check ctlMV 2 (freshState 1) (-1) (by decide)
  have hok := h4.1 (by constructor <;> norm_num)
  refine ⟨?_, hok.2, h100.2 (by norm_num), hm1.2 (by norm_num)⟩
  have heq : ctlMV.setCommand ++ formatNum 2 ((4 : Int)).toNat = "MV04" := by decide
  rw [← heq]
  exact hok.1

/-- C8: for a relative-volume control, writing the sentinel `+` enqueues
exactly the set command followed by the fixed token `UP`, and `-`
enqueues `DOWN`, both bypassing numeric digit formatting entirely;
any other (integer) input goes through the range check of the numeric codec
and zero-padded formatting.  The trace equation shows the one enqueued
command is exactly the sentinel token form. -/
theorem volume_sentinel_tokens (c : Control) (d : Nat) (s : SessionState) :
    VolumeControl.set c d s VolumeInput.plus =
      Except.ok (ReceiverBase.write s (c.setCommand ++ "UP")) ∧
    VolumeControl.set c d s VolumeInput.minus =
      Except.ok (ReceiverBase.write s (c.setCommand ++ "DOWN")) ∧
    (∀ v : Int, VolumeControl.set c d s (VolumeInput.int v) =
      NumericControl.setNum c d s v) ∧
    (ReceiverBase.write s (c.setCommand ++ "UP")).transmitted ++
      (ReceiverBase.write s (c.setCommand ++ "UP")).pendingWrites =
      s.transmitted ++ s.pendingWrites ++ [c.setCommand ++ "UP"] := by
  refine ⟨rfl, rfl, fun v => rfl, ?_⟩
  have h := write_trace s (c.setCommand ++ "UP")
  rw [h.1, List.append_assoc]

/-! ### Decode failures, cache truthiness, connection loss, sharing -/

/-- C3: when a line matches the pattern of a control but the captured value
fails to decode (an enum token absent from the table, or a non-integer
numeric capture), the parse method of the matching class removes any cached
value for that identity, emits a diagnostic with the raw capture,
fulfills no waiter (all stay registered and pending, none is fired or
failed), and — the decode error being caught, `parseCapture` is a total
function — no exception surfaces to any caller. -/
theorem decode_failure_invalidates_cache (c : Control) (s : SessionState)
    (line m : String) (e : PyError) (_hm : c.matchLine line = some m)
    (hd : decodeCapture c.kind m = Except.error e) :
    Control.parseCapture c s m =
      { s with cache := s.cache.erase c.name
               diagnostics := s.diagnostics ++ ["Invalid value: " ++ m] } ∧
    (Control.parseCapture c s m).cache.get c.name = none ∧
    (∀ k, k ≠ c.name → (Control.parseCapture c s m).cache.get k = s.cache.get k) ∧
    (Control.parseCapture c s m).waiters = s.waiters ∧
    (Control.parseCapture c s m).fired = s.fired ∧
    (Control.parseCapture c s m).failed = s.failed := by
  have h1 : Control.parseCapture c s m =
      { s with cache := s.cache.erase c.name
               diagnostics := s.diagnostics ++ ["Invalid value: " ++ m] } := by
    unfold Control.parseCapture clearValue
    rw [hd]
  refine ⟨h1, ?_, ?_, by rw [h1], by rw [h1], by rw [h1]⟩
  · rw [h1]
    show s.cache.erase c.name c.name = none
    unfold Cache.erase
    simp
  · intro k hk
    rw [h1]
    show s.cache.erase c.name k = s.cache k
    unfold Cache.erase
    simp [hk]

theorem decode_failure_invalidates_cache_witness :
    (Control.parseCapture ctlSD stC3 "NO").cache.get "control" = none ∧
    (Control.parseCapture ctlSD stC3 "NO").waiters = [("control", 0)] ∧
    (Control.parseCapture ctlSD stC3 "NO").fired = [] ∧
    (Control.parseCapture ctlSD stC3 "NO").diagnostics = ["Invalid value: NO"] := by
  have h := decode_failure_invalidates_cache ctlSD stC3 "SDNO" "NO" PyError.valueError
    (by rfl) (by rfl)
  refine ⟨h.2.1, ?_, ?_, ?_⟩
  · rw [h.2.2.2.1]
    try rfl
  · rw [h.2.2.2.2.1]
    try rfl
  · rw [h.1]
    try rfl

/-- C4 counterexample: the claim fails on the code.  With the integer 0
cached for the identity of the control, a read does not resolve from the
cache: the `if value:` truthiness test treats it as a miss, the status
command is transmitted, a waiter is registered, and nothing is fired. -/
theorem cached_falsy_read_counterexample :
    stC4.cache.get "control" = some (Value.num 0) ∧
    (Control.get ctlMV stC4).1.transmitted = ["MV?"] ∧
    (Control.get ctlMV stC4).1.waiters = [("control", 0)] ∧
    (Control.get ctlMV stC4).1.fired = [] := by
  decide

/-- C4 amended: a read of a cached identity resolves immediately with
the cached value and sends no command exactly when the cached value is
truthy; a cached falsy value (the integer 0 or the empty string) is
instead treated as a cache miss — the status command is enqueued and a
waiter registered. -/
theorem cache_hit_requires_truthy (c : Control) (s : SessionState) (v : Value)
    (h : s.cache.get c.name = some v) :
    (v.truthy = true →
      (Control.get c s).1.transmitted = s.transmitted ∧
      (Control.get c s).1.pendingWrites = s.pendingWrites ∧
      (Control.get c s).1.waiters = s.waiters ∧
      (Control.get c s).1.fired = s.fired ++ [((Control.get c s).2, v)] ∧
      (Control.get c s).1.cache = s.cache) ∧
    (v.truthy = false →
      (Control.get c s).1.transmitted ++ (Control.get c s).1.pendingWrites =
        s.transmitted ++ s.pendingWrites ++ [c.statusCommand] ∧
      (Control.get c s).1.waiters = s.waiters ++ [(c.name, (Control.get c s).2)] ∧
      (Control.get c s).1.fired = s.fired) := by
  have hw := write_trace { s with nextWaiterId := s.nextWaiterId + 1 } c.statusCommand
  constructor
  · intro htr
    simp only [Control.get, h, htr, if_true]
    exact ⟨trivial, trivial, trivial, trivial, trivial⟩
  · intro hfa
    simp only [Control.get, h, hfa, Bool.false_eq_true, if_false]
    refine ⟨?_, ?_, ?_⟩
    · exact hw.1
    · rw [hw.2.1]
    · exact hw.2.2.1

theorem cache_hit_requires_truthy_witness :
    (Control.get ctlMV stC4b).1.transmitted = [] ∧
    (Control.get ctlMV stC4b).1.fired = [(0, Value.num 50)] ∧
    (Control.get ctlMV stC4b).1.waiters = [] ∧
    (Control.get ctlMV stC4).1.waiters = [("control", 0)] ∧
    (Control.get ctlMV stC4).1.fired = [] := by
  have h1 := cache_hit_requires_truthy ctlMV stC4b (Value.num 50) (by decide)
  have h2 := cache_hit_requires_truthy ctlMV stC4 (Value.num 0) (by decide)
  have a := h1.1 (by decide)
  have b := h2.2 (by decide)
  refine ⟨?_, ?_, ?_, ?_, ?_⟩
  · rw [a.1]
    try rfl
  · rw [a.2.2.2.1]
    try rfl
  · rw [a.2.2.1]
    try rfl
  · rw [b.2.1]
    try rfl
  · rw [b.2.2]
    try rfl

/-- C6 (evidence that the code contradicts the claim): on connection
loss `ReceiverProtocol.connectionLost` only prints a diagnostic; every
outstanding waiter stays registered and pending — none is fired and
none is failed with a disconnected error.  The concrete clauses
evaluate the handler on a session with one outstanding waiter.  (No
`close()` method exists anywhere in the source.) -/
theorem connection_lost_leaves_waiters (s : SessionState) :
    (ReceiverProtocol.connectionLost s).waiters = s.waiters ∧
    (ReceiverProtocol.connectionLost s).fired = s.fired ∧
    (ReceiverProtocol.connectionLost s).failed = s.failed ∧
    (ReceiverProtocol.connectionLost s).diagnostics =
      s.diagnostics ++ ["Connection lost"] ∧
    (ReceiverProtocol.connectionLost stC6).waiters = [("control", 0)] ∧
    (ReceiverProtocol.connectionLost stC6).fired = [] ∧
    (ReceiverProtocol.connectionLost stC6).failed = [] :=
  ⟨rfl, rfl, rfl, rfl, rfl, rfl, rfl⟩

/-- C9 (evidence that the code contradicts the claim): the waiter list
lives on the descriptor object, a class attribute shared by every
instance, so it is not owned by one connection session.  In the
scenario, a read through instance 1 registers deferred 0 on the shared
list (the status command is transmitted on connection 1 only); an
inbound line processed by instance 2 then fires that deferred — a
waiter of session 1 fulfilled by a line of session 2 — while the decoded
value lands in the cache of instance 2 and the cache of instance 1 stays empty. -/
theorem shared_descriptor_waiter_leak :
    (pairGet1 pairControl pairInit).2 = 0 ∧
    pairAfterRead.sharedDeferreds = [0] ∧
    pairAfterRead.transmitted1 = ["PW?"] ∧
    pairAfterRead.transmitted2 = [] ∧
    pairAfterRead.fired = [] ∧
    pairFinal.fired = [(0, Value.str "ON")] ∧
    pairFinal.sharedDeferreds = [] ∧
    pairFinal.cache1.get "control" = none ∧
    pairFinal.cache2.get "control" = some (Value.str "ON") := by
  decide

/-! ### Generic list helpers for the registry lemmas -/

theorem filterMap_congr_mem {α β : Type} (l : List α) (f g : α → Option β)
    (h : ∀ x ∈ l, f x = g x) : l.filterMap f = l.filterMap g := by
  induction l with
  | nil => rfl
  | cons a l ih =>
    rw [List.filterMap_cons, List.filterMap_cons, h a (List.mem_cons_self a l),
      ih (fun x hx => h x (List.mem_cons_of_mem a hx))]

theorem filterMap_eq_map_of {α β : Type} (l : List α) (f : α → Option β) (g : α → β)
    (h : ∀ x ∈ l, f x = some (g x)) : l.filterMap f = l.map g := by
  induction l with
  | nil => rfl
  | cons a l ih =>
    rw [List.filterMap_cons, h a (List.mem_cons_self a l), List.map_cons,
      ih (fun x hx => h x (List.mem_cons_of_mem a hx))]

theorem any_of_perm {α : Type} {l1 l2 : List α} (p : α → Bool) (hp : List.Perm l1 l2) :
    l1.any p = l2.any p := by
  induction hp with
  | nil => rfl
  | cons x _ ih => rw [List.any_cons, List.any_cons, ih]
  | swap x y l =>
    rw [List.any_cons, List.any_cons, List.any_cons, List.any_cons,
      ← Bool.or_assoc, Bool.or_comm (p y) (p x), Bool.or_assoc]
  | trans _ _ ih1 ih2 => rw [ih1, ih2]

theorem find?_name_eq_none {hs : List Control} {k : String}
    (h : ∀ c ∈ hs, ¬ c.name = k) : hs.find? (fun c => c.name == k) = none :=
  List.find?_eq_none.mpr (fun c hc => by simp [h c hc])

theorem find?_name_of_mem (hs : List Control) (c : Control) (k : String)
    (hnd : (hs.map Control.name).Nodup) (hc : c ∈ hs) (hk : c.name = k) :
    hs.find? (fun x => x.name == k) = some c := by
  induction hs with
  | nil => cases hc
  | cons d hs ih =>
    have hnd' : (hs.map Control.name).Nodup := by
      rw [List.map_cons] at hnd
      exact hnd.of_cons
    have hnotin : d.name ∉ hs.map Control.name := by
      rw [List.map_cons] at hnd
      exact (List.nodup_cons.mp hnd).1
    by_cases hdk : d.name = k
    · rw [List.find?_cons_of_pos _ (by simp [hdk])]
      rcases List.mem_cons.mp hc with h1 | h1
      · rw [h1]
      · exact absurd (by rw [hdk, ← hk]; exact List.mem_map_of_mem Control.name h1) hnotin
    · rw [List.find?_cons_of_neg _ (by simp [hdk])]
      rcases List.mem_cons.mp hc with h1 | h1
      · exact absurd (by rw [← h1]; exact hk) hdk
      · exact ih hnd' h1

theorem find?_name_perm (hs1 hs2 : List Control) (k : String)
    (hnd : (hs1.map Control.name).Nodup) (hp : List.Perm hs1 hs2) :
    hs1.find? (fun c => c.name == k) = hs2.find? (fun c => c.name == k) := by
  have hnd2 : (hs2.map Control.name).Nodup := (hp.map Control.name).nodup hnd
  cases hf : hs1.find? (fun c => c.name == k) with
  | some c =>
    have hc1 : c ∈ hs1 := List.mem_of_find?_eq_some hf
    have hck : c.name = k := by simpa using List.find?_some hf
    rw [find?_name_of_mem hs2 c k hnd2 (hp.mem_iff.mp hc1) hck]
  | none =>
    have hnone := List.find?_eq_none.mp hf
    rw [find?_name_eq_none (fun c hc => by simpa using hnone c (hp.mem_iff.mpr hc))]

/-! ### Effect of one registry entry on one line -/

theorem lineStep_nomatch (line : String) (s : SessionState) (c : Control)
    (hm : c.matchLine line = none) : lineStep line s c = s := by
  unfold lineStep
  rw [hm]

theorem lineStep_store (line : String) (s : SessionState) (c : Control) (m : String)
    (v : Value) (hm : c.matchLine line = some m)
    (hd : decodeCapture c.kind m = Except.ok v) :
    lineStep line s c = storeValue c s v := by
  unfold lineStep
  simp only [hm]
  unfold Control.parseCapture
  simp only [hd]

theorem lineStep_fail (line : String) (s : SessionState) (c : Control) (m : String)
    (e : PyError) (hm : c.matchLine line = some m)
    (hd : decodeCapture c.kind m = Except.error e) :
    lineStep line s c =
      { s with cache := s.cache.erase c.name
               diagnostics := s.diagnostics ++ ["Invalid value: " ++ m] } := by
  unfold lineStep
  simp only [hm]
  unfold Control.parseCapture clearValue
  simp only [hd]

theorem storeValue_cache_get (c : Control) (s : SessionState) (v : Value) (k : String) :
    (storeValue c s v).cache.get k = if k = c.name then some v else s.cache.get k := rfl

theorem storesValue_some (c : Control) (line : String) (v : Value)
    (hv : storesValue c line = some v) :
    ∃ m, c.matchLine line = some m ∧ decodeCapture c.kind m = Except.ok v := by
  unfold storesValue at hv
  cases hm : c.matchLine line with
  | none =>
    rw [hm] at hv
    cases hv
  | some m =>
    simp only [hm] at hv
    cases hd : decodeCapture c.kind m with
    | ok w =>
      rw [hd] at hv
      simp only [Except.toOption, Option.some.injEq] at hv
      exact ⟨m, rfl, by rw [hd, hv]⟩
    | error e =>
      rw [hd] at hv
      cases hv

theorem storesValue_none_of_nomatch (c : Control) (line : String)
    (hm : c.matchLine line = none) : storesValue c line = none := by
  unfold storesValue
  rw [hm]

theorem lineStep_cache_other (line : String) (s : SessionState) (c : Control)
    (k : String) (hk : ¬ c.name = k) :
    (lineStep line s c).cache.get k = s.cache.get k := by
  cases hm : c.matchLine line with
  | none => rw [lineStep_nomatch line s c hm]
  | some m =>
    cases hd : decodeCapture c.kind m with
    | ok v =>
      rw [lineStep_store line s c m v hm hd, storeValue_cache_get,
        if_neg (fun h => hk h.symm)]
    | error e =>
      rw [lineStep_fail line s c m e hm hd]
      show s.cache.erase c.name k = s.cache k
      unfold Cache.erase
      rw [if_neg (fun h => hk h.symm)]

theorem lineStep_keep (line : String) (s : SessionState) (c : Control)
    (hn : storesValue c line = none) :
    (lineStep line s c).waiters = s.waiters ∧ (lineStep line s c).fired = s.fired := by
  unfold storesValue at hn
  cases hm : c.matchLine line with
  | none =>
    rw [lineStep_nomatch line s c hm]
    exact ⟨rfl, rfl⟩
  | some m =>
    simp only [hm] at hn
    cases hd : decodeCapture c.kind m with
    | ok v =>
      rw [hd] at hn
      cases hn
    | error e =>
      rw [lineStep_fail line s c m e hm hd]
      exact ⟨rfl, rfl⟩

theorem lineStep_fire (line : String) (s : SessionState) (c : Control) (v : Value)
    (hv : storesValue c line = some v) :
    (lineStep line s c).waiters = s.waiters.filter (fun w => !(w.1 == c.name)) ∧
    (lineStep line s c).fired =
      s.fired ++ (s.waiters.filter (fun w => w.1 == c.name)).map (fun w => (w.2, v)) := by
  obtain ⟨m, hm, hd⟩ := storesValue_some c line v hv
  rw [lineStep_store line s c m v hm hd]
  exact ⟨rfl, rfl⟩

/-! ### The handler loop over the whole registry -/

theorem foldHandle_fst (line : String) (hs : List Control) :
    ∀ (s : SessionState) (b : Bool),
      (hs.foldl (handleLine line) (s, b)).1 = hs.foldl (lineStep line) s := by
  induction hs with
  | nil => intro s b; rfl
  | cons c hs ih =>
    intro s b
    rw [List.foldl_cons, List.foldl_cons]
    cases hm : c.matchLine line with
    | some m =>
      show (hs.foldl (handleLine line) (handleLine line (s, b) c)).1 = _
      unfold handleLine lineStep
      simp only [hm]
      exact ih (Control.parseCapture c s m) true
    | none =>
      show (hs.foldl (handleLine line) (handleLine line (s, b) c)).1 = _
      unfold handleLine lineStep
      simp only [hm]
      exact ih s b

theorem cacheOutcome_nomatch (line : String) (c : Control) (base : Option Value)
    (hm : c.matchLine line = none) : cacheOutcome line c base = base := by
  unfold cacheOutcome
  simp only [hm]

theorem cacheOutcome_match (line : String) (c : Control) (base : Option Value)
    (m : String) (hm : c.matchLine line = some m) :
    cacheOutcome line c base = (decodeCapture c.kind m).toOption := by
  unfold cacheOutcome
  simp only [hm]

theorem registryCacheSpec_none (line : String) (hs : List Control) (k : String)
    (base : Option Value) (h : hs.find? (fun c => c.name == k) = none) :
    registryCacheSpec line hs k base = base := by
  unfold registryCacheSpec
  simp only [h]

theorem registryCacheSpec_cons_pos (line : String) (c : Control) (hs : List Control)
    (k : String) (base : Option Value) (h : (c.name == k) = true) :
    registryCacheSpec line (c :: hs) k base = cacheOutcome line c base := by
  have hfind : (c :: hs).find? (fun x => x.name == k) = some c :=
    List.find?_cons_of_pos hs h
  unfold registryCacheSpec
  simp only [hfind]

theorem registryCacheSpec_cons_neg (line : String) (c : Control) (hs : List Control)
    (k : String) (base : Option Value) (h : ¬ c.name = k) :
    registryCacheSpec line (c :: hs) k base = registryCacheSpec line hs k base := by
  unfold registryCacheSpec
  rw [List.find?_cons_of_neg _ (by simp [h])]

theorem foldStep_cache (line : String) (hs : List Control) :
    ∀ (s : SessionState) (k : String), (hs.map Control.name).Nodup →
      (hs.foldl (lineStep line) s).cache.get k =
        registryCacheSpec line hs k (s.cache.get k) := by
  induction hs with
  | nil =>
    intro s k _
    rfl
  | cons c hs ih =>
    intro s k hnd
    have hnd' : (hs.map Control.name).Nodup := by
      rw [List.map_cons] at hnd
      exact hnd.of_cons
    have hnotin : c.name ∉ hs.map Control.name := by
      rw [List.map_cons] at hnd
      exact (List.nodup_cons.mp hnd).1
    rw [List.foldl_cons, ih (lineStep line s c) k hnd']
    by_cases hk : c.name = k
    · subst hk
      have hnone : hs.find? (fun x => x.name == c.name) = none :=
        find?_name_eq_none (fun d hd hdk =>
          hnotin (by rw [← hdk]; exact List.mem_map_of_mem Control.name hd))
      rw [registryCacheSpec_none line hs c.name _ hnone,
        registryCacheSpec_cons_pos line c hs c.name _ (by simp)]
      cases hm : c.matchLine line with
      | none =>
        rw [lineStep_nomatch line s c hm, cacheOutcome_nomatch line c _ hm]
      | some m =>
        rw [cacheOutcome_match line c _ m hm]
        cases hd : decodeCapture c.kind m with
        | ok v =>
          rw [lineStep_store line s c m v hm hd, storeValue_cache_get, if_pos rfl]
          rfl
        | error e =>
          rw [lineStep_fail line s c m e hm hd]
          show s.cache.erase c.name c.name = (Except.error e : Except PyError Value).toOption
          unfold Cache.erase
          rw [if_pos rfl]
          rfl
    · rw [registryCacheSpec_cons_neg line c hs k _ hk,
        lineStep_cache_other line s c k hk]

theorem foldStep_waiters (line : String) (hs : List Control) :
    ∀ s : SessionState,
      (hs.foldl (lineStep line) s).waiters =
        s.waiters.filter (fun w => !(storesAny hs line w.1)) := by
  induction hs with
  | nil =>
    intro s
    simp [storesAny]
  | cons c hs ih =>
    intro s
    rw [List.foldl_cons, ih (lineStep line s c)]
    cases hv : storesValue c line with
    | none =>
      rw [(lineStep_keep line s c hv).1]
      apply List.filter_congr
      intro w _
      unfold storesAny
      rw [List.any_cons]
      simp [hv]
    | some v =>
      rw [(lineStep_fire line s c v hv).1, List.filter_filter]
      apply List.filter_congr
      intro w _
      unfold storesAny
      rw [List.any_cons]
      by_cases hwk : w.1 = c.name
      · simp [hv, hwk]
      · have e1 : (w.1 == c.name) = false := beq_eq_false_iff_ne.mpr hwk
        have e2 : (c.name == w.1) = false :=
          beq_eq_false_iff_ne.mpr (fun h => hwk h.symm)
        simp [hv, e1, e2]

theorem firedFor_found (hs : List Control) (line : String) (w : String × Nat)
    (c : Control) (h : hs.find? (fun x => x.name == w.1) = some c) :
    firedFor hs line w = (storesValue c line).map (fun v => (w.2, v)) := by
  unfold firedFor
  simp only [h]

theorem firedFor_notfound (hs : List Control) (line : String) (w : String × Nat)
    (h : hs.find? (fun x => x.name == w.1) = none) :
    firedFor hs line w = none := by
  unfold firedFor
  simp only [h]

theorem firedFor_cons_skip (c : Control) (hs : List Control) (line : String)
    (w : String × Nat) (h : ¬ c.name = w.1) :
    firedFor (c :: hs) line w = firedFor hs line w := by
  unfold firedFor
  rw [List.find?_cons_of_neg _ (by simp [h])]

theorem foldStep_fired (line : String) (hs : List Control) :
    ∀ s : SessionState, (hs.map Control.name).Nodup →
      List.Perm (hs.foldl (lineStep line) s).fired
        (s.fired ++ s.waiters.filterMap (firedFor hs line)) := by
  induction hs with
  | nil =>
    intro s _
    have hemp : s.waiters.filterMap (firedFor [] line) = [] := by
      have h1 : s.waiters.filterMap (firedFor [] line) =
          s.waiters.filterMap (fun _ => (none : Option (Nat × Value))) :=
        filterMap_congr_mem s.waiters _ _ (fun w _ => rfl)
      rw [h1]
      simp
    rw [List.foldl_nil, hemp, List.append_nil]
  | cons c hs ih =>
    intro s hnd
    have hnd' : (hs.map Control.name).Nodup := by
      rw [List.map_cons] at hnd
      exact hnd.of_cons
    have hnotin : c.name ∉ hs.map Control.name := by
      rw [List.map_cons] at hnd
      exact (List.nodup_cons.mp hnd).1
    rw [List.foldl_cons]
    cases hv : storesValue c line with
    | none =>
      have hk := lineStep_keep line s c hv
      have ihh := ih (lineStep line s c) hnd'
      rw [hk.1, hk.2] at ihh
      have heq : s.waiters.filterMap (firedFor hs line) =
          s.waiters.filterMap (firedFor (c :: hs) line) := by
        apply filterMap_congr_mem
        intro w _
        by_cases hwk : c.name = w.1
        · have hfind : (c :: hs).find? (fun x => x.name == w.1) = some c :=
            List.find?_cons_of_pos hs (by simp [hwk])
          have hnone2 : hs.find? (fun x => x.name == w.1) = none :=
            find?_name_eq_none (fun d hd hdk =>
              hnotin (by rw [hwk, ← hdk]; exact List.mem_map_of_mem Control.name hd))
          rw [firedFor_notfound hs line w hnone2,
            firedFor_found (c :: hs) line w c hfind, hv]
          rfl
        · rw [firedFor_cons_skip c hs line w hwk]
      rw [heq] at ihh
      exact ihh
    | some v =>
      have hf := lineStep_fire line s c v hv
      have ihh := ih (lineStep line s c) hnd'
      rw [hf.1, hf.2] at ihh
      refine ihh.trans ?_
      rw [List.append_assoc]
      apply List.Perm.append_left s.fired
      have h1 : (s.waiters.filter (fun w => w.1 == c.name)).map (fun w => (w.2, v)) =
          (s.waiters.filter (fun w => w.1 == c.name)).filterMap (firedFor (c :: hs) line) := by
        symm
        apply filterMap_eq_map_of
        intro w hw
        have hwc : w.1 = c.name := by simpa using (List.mem_filter.mp hw).2
        have hfind : (c :: hs).find? (fun x => x.name == w.1) = some c :=
          List.find?_cons_of_pos hs (by simp [hwc])
        rw [firedFor_found (c :: hs) line w c hfind, hv]
        rfl
      have h2 : (s.waiters.filter (fun w => !(w.1 == c.name))).filterMap (firedFor hs line) =
          (s.waiters.filter (fun w => !(w.1 == c.name))).filterMap (firedFor (c :: hs) line) := by
        apply filterMap_congr_mem
        intro w hw
        have hwc : ¬ w.1 = c.name := by simpa using (List.mem_filter.mp hw).2
        rw [firedFor_cons_skip c hs line w (fun h => hwc h.symm)]
      rw [h1, h2]
      have hsplit :=
        (List.filter_append_perm (fun w => w.1 == c.name) s.waiters).filterMap
          (firedFor (c :: hs) line)
      rw [List.filterMap_append] at hsplit
      exact hsplit

theorem afterHandlers_data (acc : SessionState × Bool) (line : String) :
    (afterHandlers acc line).cache = acc.1.cache ∧
    (afterHandlers acc line).waiters = acc.1.waiters ∧
    (afterHandlers acc line).fired = acc.1.fired := by
  unfold afterHandlers
  split <;> exact ⟨rfl, rfl, rfl⟩

theorem advanceWriter_data (s1 : SessionState) :
    (advanceWriter s1).cache = s1.cache ∧
    (advanceWriter s1).waiters = s1.waiters ∧
    (advanceWriter s1).fired = s1.fired := by
  unfold advanceWriter
  split
  · have h := writeNext_trace { s1 with deferredWriter := false }
    exact ⟨h.2.2.2.2.1, h.2.1, h.2.2.1⟩
  · exact ⟨rfl, rfl, rfl⟩

theorem parse_data (hs : List Control) (s : SessionState) (line : String) :
    (ReceiverBase.parse hs s line).cache = (hs.foldl (lineStep line) s).cache ∧
    (ReceiverBase.parse hs s line).waiters = (hs.foldl (lineStep line) s).waiters ∧
    (ReceiverBase.parse hs s line).fired = (hs.foldl (lineStep line) s).fired := by
  have h1 := advanceWriter_data (afterHandlers (hs.foldl (handleLine line) (s, false)) line)
  have h2 := afterHandlers_data (hs.foldl (handleLine line) (s, false)) line
  have h3 := foldHandle_fst line hs s false
  refine ⟨?_, ?_, ?_⟩
  · show (advanceWriter _).cache = _
    rw [h1.1, h2.1, h3]
  · show (advanceWriter _).waiters = _
    rw [h1.2.1, h2.2.1, h3]
  · show (advanceWriter _).fired = _
    rw [h1.2.2, h2.2.2, h3]

theorem registryCacheSpec_found (line : String) (hs : List Control) (k : String)
    (base : Option Value) (c : Control)
    (h : hs.find? (fun x => x.name == k) = some c) :
    registryCacheSpec line hs k base = cacheOutcome line c base := by
  unfold registryCacheSpec
  simp only [h]

/-- C5: every registry entry whose pattern matches an inbound line is
processed, not just the first match: the decoded value of each matching control
lands in the cache under its own identity and fulfills exactly
the pending waiters of that identity, while controls that do not match leave
their waiters pending — so several descriptors sharing one status
command have their reads fulfilled independently as each reply line
arrives.  Moreover, for registries with distinct control names the
result does not depend on registration order: any permutation of the
registry yields the same cache lookups, the same remaining waiters, and
the same fired callbacks up to order. -/
theorem registry_all_matches_processed (hs1 hs2 : List Control) (s : SessionState)
    (line : String) (hnd : (hs1.map Control.name).Nodup)
    (hp : List.Perm hs1 hs2) :
    (∀ c ∈ hs1, ∀ m v, c.matchLine line = some m →
      decodeCapture c.kind m = Except.ok v →
      (ReceiverBase.parse hs1 s line).cache.get c.name = some v ∧
      (∀ wid, (c.name, wid) ∈ s.waiters →
        (wid, v) ∈ (ReceiverBase.parse hs1 s line).fired)) ∧
    (∀ c ∈ hs1, c.matchLine line = none →
      ∀ wid, (c.name, wid) ∈ s.waiters →
        (c.name, wid) ∈ (ReceiverBase.parse hs1 s line).waiters) ∧
    (∀ k, (ReceiverBase.parse hs1 s line).cache.get k =
      (ReceiverBase.parse hs2 s line).cache.get k) ∧
    (ReceiverBase.parse hs1 s line).waiters =
      (ReceiverBase.parse hs2 s line).waiters ∧
    List.Perm (ReceiverBase.parse hs1 s line).fired
      (ReceiverBase.parse hs2 s line).fired := by
  have hnd2 : (hs2.map Control.name).Nodup := (hp.map Control.name).nodup hnd
  have hd1 := parse_data hs1 s line
  have hd2 := parse_data hs2 s line
  refine ⟨?_, ?_, ?_, ?_, ?_⟩
  · intro c hc m v hm hdec
    constructor
    · rw [hd1.1, foldStep_cache line hs1 s c.name hnd,
        registryCacheSpec_found line hs1 c.name _ c
          (find?_name_of_mem hs1 c c.name hnd hc rfl),
        cacheOutcome_match line c _ m hm, hdec]
      rfl
    · intro wid hw
      have hperm := foldStep_fired line hs1 s hnd
      rw [hd1.2.2]
      refine hperm.mem_iff.mpr ?_
      apply List.mem_append_right
      apply List.mem_filterMap.mpr
      refine ⟨(c.name, wid), hw, ?_⟩
      rw [firedFor_found hs1 line (c.name, wid) c
        (find?_name_of_mem hs1 c c.name hnd hc rfl)]
      unfold storesValue
      simp only [hm, hdec]
      rfl
  · intro c hc hm wid hw
    rw [hd1.2.1, foldStep_waiters line hs1 s]
    have hfalse : storesAny hs1 line c.name = false := by
      cases hba : storesAny hs1 line c.name
      · rfl
      · exfalso
        obtain ⟨x, hx, hpx⟩ := List.any_eq_true.mp hba
        rw [Bool.and_eq_true] at hpx
        have hand := hpx
        have hxn : x.name = c.name := by simpa using hand.1
        have hxc : x = c := List.inj_on_of_nodup_map hnd hx hc hxn
        have := hand.2
        rw [hxc, storesValue_none_of_nomatch c line hm] at this
        cases this
    exact List.mem_filter.mpr ⟨hw, by simp [hfalse]⟩
  · intro k
    rw [hd1.1, hd2.1, foldStep_cache line hs1 s k hnd,
      foldStep_cache line hs2 s k hnd2]
    unfold registryCacheSpec
    rw [find?_name_perm hs1 hs2 k hnd hp]
  · rw [hd1.2.1, hd2.2.1, foldStep_waiters line hs1 s, foldStep_waiters line hs2 s]
    apply List.filter_congr
    intro w _
    unfold storesAny
    rw [any_of_perm _ hp]
  · rw [hd1.2.2, hd2.2.2]
    have p1 := foldStep_fired line hs1 s hnd
    have p2 := foldStep_fired line hs2 s hnd2
    have heq : s.waiters.filterMap (firedFor hs1 line) =
        s.waiters.filterMap (firedFor hs2 line) := by
      apply filterMap_congr_mem
      intro w _
      unfold firedFor
      rw [find?_name_perm hs1 hs2 w.1 hnd hp]
    rw [heq] at p1
    exact p1.trans p2.symm

theorem registry_all_matches_processed_witness :
    (ReceiverBase.parse [ctlFL, ctlFR] stC5 "CVFL 50").cache.get "cvfl" =
      some (Value.num 50) ∧
    (0, Value.num 50) ∈ (ReceiverBase.parse [ctlFL, ctlFR] stC5 "CVFL 50").fired ∧
    ("cvfr", 1) ∈ (ReceiverBase.parse [ctlFL, ctlFR] stC5 "CVFL 50").waiters ∧
    (ReceiverBase.parse [ctlFL, ctlFR] stC5 "CVFL 50").cache.get "cvfl" =
      (ReceiverBase.parse [ctlFR, ctlFL] stC5 "CVFL 50").cache.get "cvfl" ∧
    (ReceiverBase.parse [ctlFL, ctlFR] stC5 "CVFL 50").waiters =
      (ReceiverBase.parse [ctlFR, ctlFL] stC5 "CVFL 50").waiters := by
  have h := registry_all_matches_processed [ctlFL, ctlFR] [ctlFR, ctlFL] stC5 "CVFL 50"
    (by decide) (by decide)
  have h1 := h.1 ctlFL (by decide) " 50" (Value.num 50) (by rfl) (by rfl)
  have h2 := h.2.1 ctlFR (by decide) (by rfl) 1 (by decide)
  exact ⟨h1.1, h1.2 0 (by decide), h2, h.2.2.1 "cvfl", h.2.2.2.1⟩
